import Mathlib

/-!
Verification development for the cli-ai-project repository.

This file gives a shallow embedding, in Lean 4, of the parts of the program
that the specification claims talk about:

* `substitute_placeholders` and `execute_plan` from `src/executor.py`;
* the replanning loop of `main()` from `src/main.py` (lines 346-397);
* `SessionMemoryManager.add_exchange`, `add_single_message` and
  `_ensure_conversation_boundary` from `src/src/cli_ai/memory/session_manager.py`;
* `analyze_task_progress` from `src/src/cli_ai/utils/task_progress.py`.

Python dictionaries are modelled as association lists (Python dict keys are
unique and iteration order is insertion order), JSON-ish Python values as the
inductive type `Value`, and user input / tool execution — which are I/O in the
program — as explicit environment parameters.
-/

namespace CliAgent

/-- A Python value as it flows through the agent: the JSON-serialisable
subset that tool arguments and tool outputs use (`substitute_placeholders`
deep-copies its argument through `json.dumps`/`json.loads`, so only this
subset ever reaches the code modelled here). -/
inductive Value where
  | str (s : String)
  | int (i : Int)
  | bool (b : Bool)
  | null
  | list (xs : List Value)
  | dict (fs : List (String × Value))

/-- Tool argument maps and tool-output dictionaries: Python `dict` with
string keys, as an association list in insertion order. -/
abbrev ArgsMap := List (String × Value)

/-- Python `d[k]` lookup / `k in d` on a string-keyed dict. -/
def alookup : ArgsMap → String → Option Value
  | [], _ => none
  | p :: ps, k => if p.1 = k then some p.2 else alookup ps k

mutual

/-- Python `==` on the modelled values.  Dict equality is key-based and
insensitive to insertion order (keys of a Python dict are unique, so
equal length plus entrywise key lookup is the dict equality). -/
def pyEq : Value → Value → Bool
  | .str a, .str b => a = b
  | .int a, .int b => a = b
  | .bool a, .bool b => a = b
  | .null, .null => true
  | .list xs, .list ys => pyEqList xs ys
  | .dict fs, .dict gs => fs.length = gs.length && pyEqSubset fs gs
  | _, _ => false
termination_by structural a _ => a

/-- Elementwise Python `==` on lists. -/
def pyEqList : List Value → List Value → Bool
  | [], [] => true
  | x :: xs, y :: ys => pyEq x y && pyEqList xs ys
  | _, _ => false
termination_by structural xs _ => xs

/-- Every entry of the first dict is present, with a `==` value, in the
second. -/
def pyEqSubset : List (String × Value) → List (String × Value) → Bool
  | [], _ => true
  | p :: ps, gs =>
    (match alookup gs p.1 with
     | some w => pyEq p.2 w
     | none => false) && pyEqSubset ps gs
termination_by structural ps _ => ps

end

/-- Python `d[k] = v` on a string-keyed dict (replaces in place, appends if
the key is new). -/
def aset : ArgsMap → String → Value → ArgsMap
  | [], k, v => [(k, v)]
  | p :: ps, k, v => if p.1 = k then (k, v) :: ps else p :: aset ps k v

mutual

/-- Python `repr` on the modelled values (quote escaping inside strings is
not modelled; no claim depends on it). -/
def pyRepr : Value → String
  | .str s => "'" ++ s ++ "'"
  | .int i => toString i
  | .bool b => if b then "True" else "False"
  | .null => "None"
  | .list xs => "[" ++ pyReprList xs ++ "]"
  | .dict fs => "\x7b" ++ pyReprFields fs ++ "\x7d"

def pyReprList : List Value → String
  | [] => ""
  | [x] => pyRepr x
  | x :: xs => pyRepr x ++ ", " ++ pyReprList xs

def pyReprFields : List (String × Value) → String
  | [] => ""
  | [p] => "'" ++ p.1 ++ "': " ++ pyRepr p.2
  | p :: ps => "'" ++ p.1 ++ "': " ++ pyRepr p.2 ++ ", " ++ pyReprFields ps

end

/-- Python `str` on the modelled values: a string is itself, everything
else is its `repr`. -/
def pyStr : Value → String
  | .str s => s
  | v => pyRepr v

/-- Python truthiness of the modelled values. -/
def pyTruthy : Value → Bool
  | .str s => ¬(s = "")
  | .int i => ¬(i = 0)
  | .bool b => b
  | .null => false
  | .list xs => ¬xs.isEmpty
  | .dict fs => ¬fs.isEmpty

/-- `needle in haystack` on character lists (Python `in` on strings). -/
def containsSub (needle : List Char) : List Char → Bool
  | [] => needle.isEmpty
  | c :: cs => List.isPrefixOf needle (c :: cs) || containsSub needle cs

/-- Python `str.lower()` (ASCII part, which is all the executor compares). -/
def strLower (s : String) : String := String.mk (s.data.map Char.toLower)

/-! ## `substitute_placeholders` (src/executor.py lines 63-108)

The function scans each string-valued argument for placeholders with
`re.findall(r"(<output_of_step_(\d+)>(\[.*?\]|\\.[\w_]+)*)", arg_value)`
and resolves each one against the prior steps' outputs by building a Python
expression and `eval`-ing it.

The regex is embedded as a character-level scanner: a match is the literal
`<output_of_step_`, one or more digits, `>`, then zero or more trailing
segments, where a segment is either `[` + (shortest run of characters up to
the first `]`, which `.*?` forbids to contain a newline) + `]`, or a literal
backslash, one character, and one or more word characters (the second regex
alternative `\\.[\w_]+` demands a literal backslash in the argument text, so
an attribute access like `.foo` is never matched — only the bracketed form
works).  `re.findall` returns non-overlapping matches left to right, with
the trailing-segment group matched greedily. -/

/-- One trailing segment of a placeholder: `idx c` is `[c]` (c has no `]`
and no newline), `bs raw` is a backslash chunk matched by the regex
alternative `\\.[\w_]+`, stored as its literal text. -/
inductive Seg where
  | idx (content : String)
  | bs (raw : String)
deriving DecidableEq

/-- One regex match: the digit group (kept as written, so leading zeros
survive into the full matched text) and the trailing segments. -/
structure PMatch where
  digits : String
  chain : List Seg
deriving DecidableEq

/-- The literal that opens every placeholder. -/
def phLit : List Char := "<output_of_step_".data

/-- Match a literal prefix, returning the rest of the input. -/
def dropLit : List Char → List Char → Option (List Char)
  | [], cs => some cs
  | _, [] => none
  | l :: ls, c :: cs => if l = c then dropLit ls cs else none

/-- Take the leading run of decimal digits (the `(\d+)` group). -/
def takeDigits : List Char → (List Char × List Char)
  | [] => ([], [])
  | c :: cs =>
    if c.isDigit then
      let (ds, rest) := takeDigits cs
      (c :: ds, rest)
    else ([], c :: cs)

/-- Python `\w` (ASCII part). -/
def isWordChar (c : Char) : Bool := c.isAlphanum || c = '_'

/-- Parse one trailing segment at the head of the input, if the regex
alternation `(\[.*?\]|\\.[\w_]+)` matches there. -/
def parseSeg : List Char → Option (Seg × List Char)
  | '[' :: cs =>
    let content := cs.takeWhile (fun c => ¬(c = ']'))
    let rest := cs.drop content.length
    match rest with
    | ']' :: rest' =>
      if content.contains '\n' then none
      else some (.idx (String.mk content), rest')
    | _ => none
  | '\\' :: c :: cs =>
    let ws := cs.takeWhile isWordChar
    if ws.isEmpty then none
    else some (.bs (String.mk ('\\' :: c :: ws)), cs.drop ws.length)
  | _ => none

/-- Greedily parse the trailing-segment chain (the `(...)*` group). -/
def parseSegs (fuel : Nat) (cs : List Char) : (List Seg × List Char) :=
  match fuel with
  | 0 => ([], cs)
  | fuel + 1 =>
    match parseSeg cs with
    | some (seg, rest) =>
      let (segs, rest') := parseSegs fuel rest
      (seg :: segs, rest')
    | none => ([], cs)

/-- Scan the whole argument string for matches, left to right,
non-overlapping, as `re.findall` does. -/
def scanAux (fuel : Nat) (cs : List Char) : List PMatch :=
  match fuel with
  | 0 => []
  | fuel + 1 =>
    match cs with
    | [] => []
    | _ :: tl =>
      match dropLit phLit cs with
      | some rest1 =>
        match takeDigits rest1 with
        | ([], _) => scanAux fuel tl
        | (ds, rest2) =>
          match rest2 with
          | '>' :: rest3 =>
            let (segs, rest4) := parseSegs rest3.length rest3
            { digits := String.mk ds, chain := segs } :: scanAux fuel rest4
          | _ => scanAux fuel tl
      | none => scanAux fuel tl

/-- All placeholder matches in an argument string. -/
def scanPlaceholders (s : String) : List PMatch := scanAux (s.length + 1) s.data

/-- The source text of one trailing segment. -/
def renderSeg : Seg → String
  | .idx c => "[" ++ c ++ "]"
  | .bs raw => raw

/-- The full matched text of a placeholder (regex group 1), e.g.
`<output_of_step_1>['result']`. -/
def fullOf (m : PMatch) : String :=
  "<output_of_step_" ++ m.digits ++ ">" ++ String.join (m.chain.map renderSeg)

/-- Python `int(...)` on the digit group. -/
def digitsToNat (s : String) : Nat :=
  s.data.foldl (fun n c => n * 10 + (c.toNat - '0'.toNat)) 0

/-- Python indexing `v[i]` with an integer literal: list indexing with
negative wrap-around, string indexing yields a one-character string;
anything else raises (modelled as `none`). -/
def pyIndex (v : Value) (i : Int) : Option Value :=
  match v with
  | .list xs =>
    let j := if i < 0 then i + xs.length else i
    if h : 0 ≤ j ∧ j < xs.length then some (xs.get ⟨j.toNat, by omega⟩) else none
  | .str s =>
    let j := if i < 0 then i + s.data.length else i
    if h : 0 ≤ j ∧ j < s.data.length then
      some (.str (String.mk [s.data.get ⟨j.toNat, by omega⟩]))
    else none
  | _ => none

/-- Python indexing `v[k]` with a string key: dict lookup, `KeyError` /
`TypeError` modelled as `none`. -/
def pyKeyIndex (v : Value) (k : String) : Option Value :=
  match v with
  | .dict fs => alookup fs k
  | _ => none

/-- Leading/trailing ASCII whitespace strip, as Python `eval` tolerates
inside an index expression. -/
def trimWs (cs : List Char) : List Char :=
  ((cs.dropWhile Char.isWhitespace).reverse.dropWhile Char.isWhitespace).reverse

/-- Whether a trimmed index expression is a quoted string literal, and its
content.  Only plain single- or double-quoted literals without an inner
quote are recognised; any other expression inside the brackets is modelled
as an `eval` failure (the program's `except` branch). -/
def quotedLit (cs : List Char) : Option String :=
  match cs with
  | q :: rest =>
    if (q = '\'' || q = '"') ∧ rest.length ≥ 1 then
      let inner := rest.dropLast
      if rest.getLast? = some q ∧ ¬(inner.contains q) ∧ ¬(inner.contains '\\') then
        some (String.mk inner)
      else none
    else none
  | [] => none

/-- Whether a trimmed index expression is an integer literal, and its value. -/
def intLit (cs : List Char) : Option Int :=
  match cs with
  | '-' :: ds =>
    if ¬ds.isEmpty ∧ ds.all Char.isDigit then some (-(digitsToNat (String.mk ds) : Int))
    else none
  | ds =>
    if ¬ds.isEmpty ∧ ds.all Char.isDigit then some ((digitsToNat (String.mk ds) : Int))
    else none

/-- Evaluate one trailing segment against a value, as the `eval` of the
built expression does.  A backslash chunk makes the expression a syntax
error, hence always fails. -/
def evalSeg (v : Value) : Seg → Option Value
  | .bs _ => none
  | .idx content =>
    let t := trimWs content.data
    match quotedLit t with
    | some k => pyKeyIndex v k
    | none =>
      match intLit t with
      | some i => pyIndex v i
      | none => none

/-- Evaluate the whole indexing chain of a placeholder against the
referenced step output (the `eval(python_expression, ...)` call). -/
def evalChain (v : Value) : List Seg → Option Value
  | [] => some v
  | seg :: segs =>
    match evalSeg v seg with
    | some v' => evalChain v' segs
    | none => none

/-- Lines 85-86: if the evaluated value is a dict with a `result` key,
unwrap to that entry. -/
def unwrapResult (v : Value) : Value :=
  match v with
  | .dict fs =>
    match alookup fs "result" with
    | some r => r
    | none => v
  | _ => v

/-- Lines 91-94: the replacement text used when the placeholder is embedded
inside a larger string — a list becomes quoted space-separated tokens,
anything else its `str`. -/
def stringifyForEmbed (v : Value) : String
  :=
  match v with
  | .list xs => String.intercalate " " (xs.map (fun it => "\"" ++ pyStr it ++ "\""))
  | v => pyStr v

/-- Python `str.replace(pat, repl)`: replace every non-overlapping
occurrence, scanning left to right. -/
def replaceAllAux (pat repl : List Char) : Nat → List Char → List Char
  | 0, cs => cs
  | _ + 1, [] => []
  | fuel + 1, c :: cs =>
    if ¬pat.isEmpty ∧ List.isPrefixOf pat (c :: cs) then
      repl ++ replaceAllAux pat repl fuel ((c :: cs).drop pat.length)
    else c :: replaceAllAux pat repl fuel cs

/-- Python `s.replace(pat, repl)` on strings. -/
def replaceAll (s pat repl : String) : String :=
  String.mk (replaceAllAux pat.data repl.data (s.data.length + 1) s.data)

/-- The loop body of lines 73-107 for one regex match.  `s` stays bound to
the original `arg_value` snapshot from `list(current_args.items())`, so
the whole-string comparison of line 88, the `replace` of line 96 and the
except-branch reset of line 103 all use the original string even after an
earlier match already rewrote the entry (`cur`). -/
def applyMatch (s : String) (step_outputs : List Value) (cur : Value) (m : PMatch) : Value :=
  let n := digitsToNat m.digits
  if 0 < n ∧ n ≤ step_outputs.length then
    match step_outputs.get? (n - 1) with
    | none => cur
    | some prev =>
      match evalChain prev m.chain with
      | some v0 =>
        let v1 := unwrapResult v0
        if fullOf m = s then v1
        else .str (replaceAll s (fullOf m) (stringifyForEmbed v1))
      | none => .str s
  else cur

/-- Process one string-valued argument: fold the loop body over all regex
matches in order. -/
def processArg (s : String) (step_outputs : List Value) : Value :=
  (scanPlaceholders s).foldl (applyMatch s step_outputs) (.str s)

/-- The per-entry action of `substitute_placeholders`: only string values
containing `<output_of_step_` are touched (line 69). -/
def substEntry (step_outputs : List Value) (p : String × Value) : String × Value :=
  match p.2 with
  | .str s =>
    if containsSub phLit s.data then (p.1, processArg s step_outputs) else p
  | _ => p

/-- `substitute_placeholders(args, step_outputs)`, src/executor.py 63-108.
Each entry is examined independently: the loop body only ever assigns to
the entry's own key, so the dict iteration is a map over the entries. -/
def substitute_placeholders (args : ArgsMap) (step_outputs : List Value) : ArgsMap :=
  args.map (substEntry step_outputs)

/-! ## `execute_plan` (src/executor.py lines 111-236)

User input (`input(...)`) and tool execution (`execute_tool`, whose body
runs external processes and I/O-bound tools) are modelled as an explicit
environment.  The model additionally returns, as instrumentation, the exact
trace of tool invocations (`invs`, tagged with the step index) and of
critical-confirmation prompts (`confs`), and a `stopped` flag recording
that the step loop exited by a `break` before reaching the end of the
plan — each of these is read off directly from the control flow of the
source, not invented behaviour. -/

/-- Status of `execute_tool`'s returned dict: `Success` or `Error`
(src/executor.py lines 31-61). -/
inductive ToolStatus where
  | success
  | error
deriving DecidableEq

/-- Status recorded in a step's entry of `plan_results`. -/
inductive StepStatus where
  | success
  | error
  | aborted
deriving DecidableEq

/-- One entry of `plan_results`. -/
structure StepResult where
  tool : String
  status : StepStatus
  output : Value

/-- One step of a plan, as the executor reads it: `step["tool"]`,
`step["args"]`, `step.get("is_critical")` (truthiness of the oracle-supplied
flag) and the optional `"checkpoint"` key. -/
structure Step where
  tool : String
  args : ArgsMap
  is_critical : Bool
  checkpoint : Option String

/-- The executor's environment: the plan-level approval prompt answer of
line 126-127 (`True` models an empty or `yes` answer), the per-prompt
critical-confirmation answers of lines 176-179 (indexed by step and by
item within the step's expanded argument list, in the order the prompts
are issued), and the outcome of `execute_tool` for a given tool name and
argument map. -/
structure ExecEnv where
  approve : Bool
  confirm : Nat → Nat → Bool
  runTool : String → ArgsMap → ToolStatus × Value

/-- Lines 140-169: the expansion of one step's substituted arguments into
the `args_to_process` list.

* For `run_shell_command` with a `command` key holding a string, line 144
  splits the string into parts; every part of `str.split()` is itself a
  string, so the `isinstance(part, list)` test of line 147 never holds,
  `list_args` stays empty and the step is not expanded.  If `command` holds
  a non-string (e.g. a list produced by whole-value placeholder
  substitution), `current_args['command'].split()` raises an uncaught
  `AttributeError`, modelled as `none`.
* For `classify_image` with a list-valued `image_path`, one argument map
  per list item is produced (lines 160-166).
* Otherwise the single substituted map is processed (lines 168-169). -/
def argsToProcess (step : Step) (current_args : ArgsMap) : Option (List ArgsMap) :=
  if step.tool = "run_shell_command" ∧ (alookup current_args "command").isSome then
    match alookup current_args "command" with
    | some (.str _) => some [current_args]
    | some _ => none
    | none => some [current_args]
  else if step.tool = "classify_image" then
    match alookup current_args "image_path" with
    | some (.list xs) => some (xs.map (fun it => aset current_args "image_path" it))
    | _ => some [current_args]
  else some [current_args]

/-- Outcome of the inner `for single_args in args_to_process` loop
(lines 172-208): the user declined the critical confirmation for item `j`,
the tool returned an `Error` status on item `j`, or every item succeeded
and `step_output_collector` holds the outputs in order. -/
inductive ItemsOutcome where
  | declined (j : Nat)
  | errored (j : Nat) (out : Value)
  | completed (collector : List Value)

/-- The inner item loop of lines 172-208 for step index `i`, starting at
item index `j`; also returns the tool invocations made and the
confirmation prompts issued, in order. -/
def procItems (env : ExecEnv) (i : Nat) (step : Step) :
    List ArgsMap → Nat → ItemsOutcome × List (Nat × String × ArgsMap) × List (Nat × Nat)
  | [], _ => (.completed [], [], [])
  | a :: rest, j =>
    if step.is_critical ∧ ¬env.confirm i j then
      (.declined j, [], [(i, j)])
    else
      let confs0 : List (Nat × Nat) := if step.is_critical then [(i, j)] else []
      let r := env.runTool step.tool a
      match r.1 with
      | .error => (.errored j r.2, [(i, step.tool, a)], confs0)
      | .success =>
        let q := procItems env i step rest (j + 1)
        (match q.1 with
         | .completed coll => .completed (r.2 :: coll)
         | oc => oc,
         (i, step.tool, a) :: q.2.1, confs0 ++ q.2.2)

/-- Lines 213-217: `final_output` is the single collected output when the
collector has exactly one element, otherwise the collector list itself. -/
def finalOutputOf : List Value → Value
  | [o] => o
  | coll => .list coll

/-- Lines 225-235: a step carrying a `"checkpoint"` key halts the loop
(without setting `plan_halted`) when its final output is falsy or its
string form contains `error` or `not found` case-insensitively. -/
def checkpointFails (step : Step) (final_output : Value) : Bool :=
  step.checkpoint.isSome ∧
    (¬pyTruthy final_output
      || containsSub "error".data (strLower (pyStr final_output)).data
      || containsSub "not found".data (strLower (pyStr final_output)).data)

/-- The full observable outcome of the step loop: `plan_results`,
`plan_halted`, the early-exit instrumentation flag, the invocation and
confirmation traces, and the final `step_outputs` accumulator. -/
structure ExecOut where
  results : List StepResult
  halted : Bool
  stopped : Bool
  invs : List (Nat × String × ArgsMap)
  confs : List (Nat × Nat)
  outputs : List Value

/-- The `for i, step in enumerate(plan)` loop of lines 132-235, from step
index `i` with accumulated `step_outputs = outs`.  `none` models the
uncaught `AttributeError` of line 144 (see `argsToProcess`). -/
def execStepsAux (env : ExecEnv) : List Step → Nat → List Value → Option ExecOut
  | [], _, outs => some ⟨[], false, false, [], [], outs⟩
  | step :: rest, i, outs =>
    let cargs := substitute_placeholders step.args outs
    match argsToProcess step cargs with
    | none => none
    | some items =>
      match procItems env i step items 0 with
      | (.declined _, invs, confs) =>
        some ⟨[⟨step.tool, .aborted, .str "User aborted critical step."⟩],
              true, true, invs, confs, outs⟩
      | (.errored _ out, invs, confs) =>
        some ⟨[⟨step.tool, .error, out⟩], true, true, invs, confs, outs⟩
      | (.completed coll, invs, confs) =>
        let fo := finalOutputOf coll
        let res : StepResult := ⟨step.tool, .success, fo⟩
        if checkpointFails step fo then
          some ⟨[res], false, true, invs, confs, outs ++ [fo]⟩
        else
          match execStepsAux env rest (i + 1) (outs ++ [fo]) with
          | none => none
          | some o =>
            some ⟨res :: o.results, o.halted, o.stopped,
                  invs ++ o.invs, confs ++ o.confs, o.outputs⟩

/-- `execute_plan(plan, history)`, src/executor.py lines 111-236.  A
declined plan-level approval returns empty results with `halted = true`
(lines 126-130); otherwise the step loop runs. -/
def execute_plan (env : ExecEnv) (plan : List Step) : Option ExecOut :=
  if env.approve then execStepsAux env plan 0 []
  else some ⟨[], true, true, [], [], []⟩

/-! ## The replanning loop (src/main.py lines 346-397)

`main()` runs `execute_plan` inside a `while replan_count <= MAX_REPLAN_ATTEMPTS`
loop; on a halted plan it increments `replan_count`, gives up past the
ceiling, and otherwise asks `create_plan` for a new plan.  The outcome of
each `execute_plan` attempt and of each `create_plan` call — both external
effects (user approval, tools, the LLM oracle) — are environment
parameters, indexed by the number of plan attempts made so far. -/

/-- `MAX_REPLAN_ATTEMPTS` (src/main.py line 348). -/
def MAX_REPLAN_ATTEMPTS : Nat := 2

/-- Shape of a `create_plan` decision as the replanning loop reads it:
a dict with a `"plan"` key, a dict with a `"text"` key, or anything else
(src/main.py lines 376-389). -/
inductive ReplanDecision where
  | plan
  | text (t : String)
  | other

/-- How the replanning loop exited. -/
inductive LoopExit where
  | completed
  | maxedOut
  | textAnswer (t : String)
  | invalidReplan
  | notEntered
deriving DecidableEq

/-- Observable outcome of the loop: how many `execute_plan` attempts were
made, every string appended to `history` during the loop, and the exit. -/
structure LoopOut where
  attempts : Nat
  history : List String
  exit : LoopExit

/-- Environment of the replanning loop: whether the k-th `execute_plan`
attempt comes back halted, the `json.dumps(plan_results)` text of that
attempt (only interpolated into the failure-context history message), and
the `create_plan` decision requested after the k-th attempt. -/
structure ReplanEnv where
  execHalted : Nat → Bool
  resultsJson : Nat → String
  replanOf : Nat → ReplanDecision

/-- The failure message of src/main.py line 364. -/
def maxReplanMsg : String :=
  "Agent: Failed to complete task after multiple replanning attempts."

/-- The `while replan_count <= MAX_REPLAN_ATTEMPTS` loop of src/main.py
lines 351-389, from a given `replan_count`, with `attempts` plan
executions already made and `hist` the history strings appended so far.
(The summary of lines 391-397 is appended after the loop on every exit
path and is not part of the loop's own bookkeeping.) -/
def replanLoopAux (env : ReplanEnv) (count attempts : Nat) (hist : List String) : LoopOut :=
  if count ≤ MAX_REPLAN_ATTEMPTS then
    let halted := env.execHalted attempts
    let attempts' := attempts + 1
    if ¬halted then
      ⟨attempts', hist, .completed⟩
    else
      let count' := count + 1
      if MAX_REPLAN_ATTEMPTS < count' then
        ⟨attempts', hist ++ [maxReplanMsg], .maxedOut⟩
      else
        let hist' := hist ++
          ["Agent: Previous plan failed. Results: " ++ env.resultsJson attempts ++
            ". Please generate a new plan to achieve the original goal, taking this failure into account."]
        match env.replanOf attempts with
        | .plan => replanLoopAux env count' attempts' hist'
        | .text t => ⟨attempts', hist' ++ ["Agent: " ++ t], .textAnswer t⟩
        | .other =>
          ⟨attempts', hist' ++ ["Agent: Replanning failed to produce a valid plan."],
            .invalidReplan⟩
  else ⟨attempts, hist, .notEntered⟩
termination_by MAX_REPLAN_ATTEMPTS + 1 - count
decreasing_by simp_wf; omega

/-- The replanning loop as entered at line 349-351: `replan_count = 0`,
no attempts made yet. -/
def replanLoop (env : ReplanEnv) : LoopOut := replanLoopAux env 0 0 []

/-! ## `SessionMemoryManager` (src/src/cli_ai/memory/session_manager.py)

Messages are modelled by their `role` and `content`; the `timestamp`,
`message_id`, `session_id` and `metadata` fields attached at construction
never influence the buffer arithmetic or the boundary check and are
omitted.  The manager state is the fields the modelled methods read and
write. -/

/-- Message roles used by the manager. -/
inductive Role where
  | user
  | assistant
  | system
deriving DecidableEq

/-- One message of the recent-message buffer. -/
structure Msg where
  role : Role
  content : String
deriving DecidableEq

/-- The manager state: `self.recent_messages`, `self.max_recent_length`,
`self.message_count`.  There is no tool-execution-mode (or any other
overflow-suspension) field anywhere in the class. -/
structure SessionState where
  recent_messages : List Msg
  max_recent_length : Nat
  message_count : Nat

/-- `SessionMemoryManager.__init__` (lines 17-27). -/
def initSession (max_recent_length : Nat) : SessionState :=
  ⟨[], max_recent_length, 0⟩

/-- `_ensure_conversation_boundary` (lines 240-254): if the overflow block
ends with a user message, pop it and move it back to the front of the
retained buffer.  Returns the adjusted overflow and the adjusted
`recent_messages`. -/
def ensure_conversation_boundary (overflow recent : List Msg) : List Msg × List Msg :=
  match overflow.getLast? with
  | some m =>
    if m.role = .user then (overflow.dropLast, m :: recent) else (overflow, recent)
  | none => (overflow, recent)

/-- `add_exchange` (lines 33-100): append the user and assistant messages,
then — unconditionally, on every call — check for overflow: round the
excess up to an even pair count, slice the oldest messages off, run the
boundary fix, and return the overflow block (`None` when the buffer is
within bounds). -/
def add_exchange (s : SessionState) (user_msg ai_msg : String) :
    SessionState × Option (List Msg) :=
  let recent := s.recent_messages ++ [⟨.user, user_msg⟩, ⟨.assistant, ai_msg⟩]
  let count := s.message_count + 2
  if recent.length > s.max_recent_length then
    let oc0 := recent.length - s.max_recent_length
    let oc1 := if oc0 % 2 ≠ 0 then oc0 + 1 else oc0
    let oc := min oc1 recent.length
    let r := ensure_conversation_boundary (recent.take oc) (recent.drop oc)
    (⟨r.2, s.max_recent_length, count⟩, some r.1)
  else (⟨recent, s.max_recent_length, count⟩, none)

/-- `add_single_message` (lines 102-149): append one message and trim the
buffer on overflow — but the method body ends without a `return`
statement, so the computed `overflow_messages` block is discarded and the
caller always receives `None`. -/
def add_single_message (s : SessionState) (role : Role) (content : String) :
    SessionState × Option (List Msg) :=
  let recent := s.recent_messages ++ [⟨role, content⟩]
  let count := s.message_count + 1
  if recent.length > s.max_recent_length then
    let oc0 := recent.length - s.max_recent_length
    let oc :=
      if oc0 = 1 ∧ recent.length > 1 then
        if recent.length > s.max_recent_length + 1 then 2 else oc0
      else oc0
    let kept := recent.drop oc
    (⟨kept, s.max_recent_length, count⟩, none)
  else (⟨recent, s.max_recent_length, count⟩, none)

/-- Run a sequence of `add_exchange` calls, collecting every overflow
block that was returned (the non-`None` returns, in order). -/
def runExchanges (s : SessionState) : List (String × String) → SessionState × List (List Msg)
  | [] => (s, [])
  | (u, a) :: rest =>
    let r := add_exchange s u a
    let rest' := runExchanges r.1 rest
    (rest'.1, (match r.2 with | some b => [b] | none => []) ++ rest'.2)

/-- A buffer made of complete user→assistant pairs in order. -/
inductive Paired : List Msg → Prop
  | nil : Paired []
  | pair (u a : Msg) (l : List Msg) :
      u.role = .user → a.role = .assistant → Paired l → Paired (u :: a :: l)

/-! ## `analyze_task_progress` (src/src/cli_ai/utils/task_progress.py)

`task_memory` enters only through `task_memory.get("actions_taken", [])`;
each recorded action is read through its `tool`, `args` and
`result.status` entries.  `latest_action` is modelled as `none` when the
dict is empty/falsy, and `latest_result` is an unused parameter of the
source function. -/

/-- One entry of `actions_taken` as the guard reads it:
`action.get("tool")`, `action.get("args", {})` and
`action.get("result", {}).get("status")`. -/
structure ActionRec where
  tool : String
  args : ArgsMap
  result_status : Option String

/-- The exact-repetition count of lines 36-43: how many of the last 4
actions used the latest `(tool, args)` pair (Python `==` on the args
dicts) with a `Success` result status. -/
def recentExactMatches (actions : List ActionRec) (ltool : String) (largs : ArgsMap) : Nat :=
  ((actions.drop (actions.length - 4)).filter
    (fun a => a.tool = ltool ∧ pyEq (.dict a.args) (.dict largs)
      ∧ a.result_status = some "Success")).length

/-- The directory-listing count of lines 53-55: how many of the last 5
actions used the `list_directory` tool. -/
def listDirCount (actions : List ActionRec) : Nat :=
  ((actions.drop (actions.length - 5)).filter (fun a => a.tool = "list_directory")).length

/-- `analyze_task_progress(task_memory, latest_action, latest_result)`
(lines 5-64), returning `(should_continue, reason)`.  `latest_result` is
never read by the source function. -/
def analyze_task_progress (actions_taken : List ActionRec)
    (latest_action : Option (String × ArgsMap)) : Bool × String :=
  let actions_count := actions_taken.length
  if actions_count = 0 then
    (true, "Ready to start task")
  else if actions_count > 25 then
    (false, "Task has taken " ++ toString actions_count ++
      " actions. Time to wrap up and provide results.")
  else
    let repetition :=
      match latest_action with
      | some (ltool, largs) =>
        if actions_count ≥ 3 then
          let exact_matches := recentExactMatches actions_taken ltool largs
          if exact_matches ≥ 3 then
            some (false, "Detected " ++ toString exact_matches ++ " repetitions of " ++
              ltool ++ ". Stopping to prevent infinite loop.")
          else none
        else none
      | none => none
    match repetition with
    | some r => r
    | none =>
      if actions_count ≥ 5 ∧ listDirCount actions_taken ≥ 4 then
        (false, "Too much directory listing without taking action. Time to proceed with the task.")
      else
        (true, "Continue normally")

/-- The pure-read tools of the DecisionOracle prompt (src/prompts.py line
55): the tools the spec calls "pure information-gathering". -/
def pureReadTools : List String :=
  ["read_file", "list_directory", "describe_image", "find_similar_images"]

/-- A placeholder match that cannot resolve: its step number is `0`, out
of range of the prior outputs, or its indexing chain fails to evaluate on
the referenced output (missing key, wrong type, unsupported expression). -/
def placeholderFails (step_outputs : List Value) (m : PMatch) : Prop :=
  digitsToNat m.digits = 0 ∨ step_outputs.length < digitsToNat m.digits
  ∨ ∀ prev, step_outputs.get? (digitsToNat m.digits - 1) = some prev →
      evalChain prev m.chain = none

/-- The five-action history used to test the repetition guard: five
successful `read_file` calls on distinct paths — all of them pure
information-gathering, none state-changing. -/
def c8Actions : List ActionRec :=
  [⟨"read_file", [("file_path", .str "f1.txt")], some "Success"⟩,
   ⟨"read_file", [("file_path", .str "f2.txt")], some "Success"⟩,
   ⟨"read_file", [("file_path", .str "f3.txt")], some "Success"⟩,
   ⟨"read_file", [("file_path", .str "f4.txt")], some "Success"⟩,
   ⟨"read_file", [("file_path", .str "f5.txt")], some "Success"⟩]

/-- A replanning environment in which every plan attempt comes back
halted and the oracle proposes a fresh plan forever. -/
def alwaysFailingReplanEnv : ReplanEnv :=
  ⟨fun _ => true, fun _ => "[]", fun _ => .plan⟩

/-! # Theorems -/

/-! ## Session memory: pairing invariant (C3) and overflow behaviour (C9, C10) -/

theorem Paired.even_length {l : List Msg} (h : Paired l) : Even l.length := by
  induction h with
  | nil => simp
  | pair u a t hu ha ht ih =>
    simp only [List.length_cons]
    obtain ⟨n, hn⟩ := ih
    exact ⟨n + 1, by omega⟩

theorem Paired.append {l₁ l₂ : List Msg} (h₁ : Paired l₁) (h₂ : Paired l₂) :
    Paired (l₁ ++ l₂) := by
  induction h₁ with
  | nil => simpa using h₂
  | pair u a t hu ha ht ih => exact Paired.pair u a (t ++ l₂) hu ha ih

theorem Paired.take_drop (k : Nat) :
    ∀ l : List Msg, Paired l → Paired (l.take (2 * k)) ∧ Paired (l.drop (2 * k)) := by
  induction k with
  | zero =>
    intro l h
    simp only [Nat.mul_zero, List.take_zero, List.drop_zero]
    exact ⟨Paired.nil, h⟩
  | succ k ih =>
    intro l h
    cases h with
    | nil =>
      simp only [List.take_nil, List.drop_nil]
      exact ⟨Paired.nil, Paired.nil⟩
    | pair u a t hu ha ht =>
      have h2 : 2 * (k + 1) = 2 * k + 1 + 1 := by omega
      rw [h2]
      simp only [List.take_succ_cons, List.drop_succ_cons]
      exact ⟨Paired.pair u a _ hu ha (ih t ht).1, (ih t ht).2⟩

theorem paired_take_drop_even {l : List Msg} {n : Nat} (hn : Even n) (h : Paired l) :
    Paired (l.take n) ∧ Paired (l.drop n) := by
  obtain ⟨k, hk⟩ := hn
  rw [show n = 2 * k by omega]
  exact Paired.take_drop k l h

theorem Paired.decomp {l : List Msg} (h : Paired l) (hne : l ≠ []) :
    ∃ front u a, l = front ++ [u, a] ∧ u.role = .user ∧ a.role = .assistant := by
  induction h with
  | nil => exact absurd rfl hne
  | pair u a t hu ha ht ih =>
    by_cases ht' : t = []
    · refine ⟨[], u, a, ?_, hu, ha⟩
      simp [ht']
    · obtain ⟨f, u', a', heq, h1, h2⟩ := ih ht'
      refine ⟨u :: a :: f, u', a', ?_, h1, h2⟩
      simp [heq]

theorem boundary_of_paired {ov : List Msg} (kept : List Msg) (h : Paired ov) :
    ensure_conversation_boundary ov kept = (ov, kept) := by
  rcases Decidable.em (ov = []) with hov | hov
  · simp [ensure_conversation_boundary, hov]
  · obtain ⟨f, u, a, heq, _, ha⟩ := h.decomp hov
    have hlast : ov.getLast? = some a := by
      rw [heq]
      have : f ++ [u, a] = (f ++ [u]) ++ [a] := by simp
      rw [this, List.getLast?_concat]
    simp [ensure_conversation_boundary, hlast, ha]

theorem add_exchange_paired (s : SessionState) (u a : String)
    (h : Paired s.recent_messages) :
    Paired (add_exchange s u a).1.recent_messages ∧
      ∀ b, (add_exchange s u a).2 = some b → Paired b := by
  have hp : Paired (s.recent_messages ++ [⟨.user, u⟩, ⟨.assistant, a⟩]) :=
    h.append (Paired.pair _ _ [] rfl rfl .nil)
  set recent := s.recent_messages ++ [⟨.user, u⟩, ⟨.assistant, a⟩] with hrec
  by_cases hlen : recent.length > s.max_recent_length
  · have heven : Even recent.length := hp.even_length
    set oc :=
      min (if (recent.length - s.max_recent_length) % 2 ≠ 0 then
            recent.length - s.max_recent_length + 1
          else recent.length - s.max_recent_length) recent.length with hoc
    have hocEven : Even oc := by
      obtain ⟨n, hn⟩ := heven
      rw [Nat.even_iff]
      rw [hoc]
      by_cases h0 : (recent.length - s.max_recent_length) % 2 = 0
      · simp only [h0, ne_eq, not_true_eq_false, if_false]
        omega
      · simp only [h0, ne_eq, not_false_eq_true, if_true]
        omega
    have htd := paired_take_drop_even hocEven hp
    have hb := boundary_of_paired (recent.drop oc) htd.1
    have hres : add_exchange s u a =
        (⟨recent.drop oc, s.max_recent_length, s.message_count + 2⟩,
          some (recent.take oc)) := by
      simp only [add_exchange, ← hrec, ← hoc]
      rw [if_pos hlen, hb]
    rw [hres]
    exact ⟨htd.2, by intro b hb'; cases hb'; exact htd.1⟩
  · have hres : add_exchange s u a =
        (⟨recent, s.max_recent_length, s.message_count + 2⟩, none) := by
      simp only [add_exchange, ← hrec]
      rw [if_neg hlen]
    rw [hres]
    exact ⟨hp, by intro b hb; cases hb⟩

theorem runExchanges_paired (exs : List (String × String)) :
    ∀ s : SessionState, Paired s.recent_messages →
      ∀ b ∈ (runExchanges s exs).2, Paired b := by
  induction exs with
  | nil => intro s _ b hb; simp [runExchanges] at hb
  | cons e rest ih =>
    intro s hs b hb
    obtain ⟨u, a⟩ := e
    have hadd := add_exchange_paired s u a hs
    simp only [runExchanges] at hb
    rcases hov : (add_exchange s u a).2 with _ | block
    · rw [hov] at hb
      simp at hb
      exact ih _ hadd.1 b hb
    · rw [hov] at hb
      simp at hb
      rcases hb with hb | hb
      · exact hb ▸ hadd.2 block hov
      · exact ih _ hadd.1 b hb

/-- C3: starting from a fresh `SessionMemoryManager` with any
`max_recent_length`, every overflow block that any `add_exchange` call of
the run returns has even length and, when non-empty, ends with an
assistant message immediately preceded by its paired user message — the
overflow never ends on an orphaned user message. -/
theorem c3_overflow_pairing (max_recent_length : Nat)
    (exs : List (String × String)) (b : List Msg)
    (hb : b ∈ (runExchanges (initSession max_recent_length) exs).2) :
    Even b.length ∧
      (b ≠ [] →
        ∃ front u a, b = front ++ [u, a] ∧ u.role = .user ∧ a.role = .assistant) := by
  have hpb : Paired b :=
    runExchanges_paired exs (initSession max_recent_length) Paired.nil b hb
  exact ⟨hpb.even_length, fun hne => hpb.decomp hne⟩

/-- C3 witness: with `max_recent_length = 2`, the second exchange makes
the first user/assistant pair overflow, and the theorem applies to it. -/
theorem c3_overflow_pairing_witness :
    [⟨.user, "u1"⟩, ⟨.assistant, "a1"⟩] ∈
        (runExchanges (initSession 2) [("u1", "a1"), ("u2", "a2")]).2 ∧
      (Even ([⟨.user, "u1"⟩, ⟨.assistant, "a1"⟩] : List Msg).length ∧
        (([⟨.user, "u1"⟩, ⟨.assistant, "a1"⟩] : List Msg) ≠ [] →
          ∃ front u a, ([⟨.user, "u1"⟩, ⟨.assistant, "a1"⟩] : List Msg) = front ++ [u, a] ∧
            u.role = .user ∧ a.role = .assistant)) :=
  ⟨by decide, c3_overflow_pairing 2 [("u1", "a1"), ("u2", "a2")] _ (by decide)⟩

/-- C9 counterexample: `SessionMemoryManager` carries no
tool-execution-mode field (see `SessionState`, translated from the class
in full), so there is no state in which `add_exchange` suspends its
overflow check: on a buffer of four messages with `max_recent_length = 2`
— the mid-turn situation the claim says returns no overflow block —
`add_exchange` runs the check and returns the four oldest messages. -/
theorem c9_counterexample :
    (add_exchange
        ⟨[⟨.user, "u1"⟩, ⟨.assistant, "a1"⟩, ⟨.user, "u2"⟩, ⟨.assistant, "a2"⟩], 2, 4⟩
        "u3" "a3").2 =
      some [⟨.user, "u1"⟩, ⟨.assistant, "a1"⟩, ⟨.user, "u2"⟩, ⟨.assistant, "a2"⟩] := by
  decide

/-- C9 (amended): `add_exchange` evaluates overflow on every call — it
returns an overflow block exactly when the two appended messages push the
buffer beyond `max_recent_length`; no state suspends the check. -/
theorem c9_overflow_checked_every_call (s : SessionState) (u a : String) :
    (add_exchange s u a).2.isSome = true ↔
      s.recent_messages.length + 2 > s.max_recent_length := by
  have hlen : (s.recent_messages ++ [(⟨.user, u⟩ : Msg), ⟨.assistant, a⟩]).length =
      s.recent_messages.length + 2 := by simp
  by_cases h :
      (s.recent_messages ++ [(⟨.user, u⟩ : Msg), ⟨.assistant, a⟩]).length >
        s.max_recent_length
  · simp only [add_exchange]
    rw [if_pos h]
    simp at h ⊢
    omega
  · simp only [add_exchange]
    rw [if_neg h]
    simp at h ⊢
    omega

/-- C10: `add_single_message` always returns `None` — also when the added
message overflows the buffer, in which case the oldest messages are
removed from `recent_messages` without being handed back to the caller
(the method body never returns the `overflow_messages` it computes). -/
theorem c10_single_message_overflow_dropped (s : SessionState) (r : Role) (c : String) :
    (add_single_message s r c).2 = none ∧
      (s.recent_messages.length + 1 > s.max_recent_length →
        ∃ evicted, evicted ≠ [] ∧
          s.recent_messages ++ [⟨r, c⟩] =
            evicted ++ (add_single_message s r c).1.recent_messages) := by
  constructor
  · simp only [add_single_message]
    split
    all_goals rfl
  · intro hov
    have hlen : (s.recent_messages ++ [(⟨r, c⟩ : Msg)]).length =
        s.recent_messages.length + 1 := by simp
    have hcond : (s.recent_messages ++ [(⟨r, c⟩ : Msg)]).length > s.max_recent_length := by
      omega
    simp only [add_single_message]
    rw [if_pos hcond]
    set recent := s.recent_messages ++ [(⟨r, c⟩ : Msg)] with hrec
    set oc :=
      if recent.length - s.max_recent_length = 1 ∧ recent.length > 1 then
        if recent.length > s.max_recent_length + 1 then 2
        else recent.length - s.max_recent_length
      else recent.length - s.max_recent_length with hoc
    refine ⟨recent.take oc, ?_, ?_⟩
    · have hocpos : 0 < oc := by
        rw [hoc]
        split
        · split <;> omega
        · omega
      have hrne : recent ≠ [] := by
        intro hemp
        rw [hemp] at hlen
        simp at hlen
      simp only [ne_eq, List.take_eq_nil_iff]
      push_neg
      exact ⟨by omega, hrne⟩
    · exact (List.take_append_drop oc recent).symm

/-- C10 witness: a buffer of two messages with `max_recent_length = 2`
overflows on the third message; the call still returns `None` and the
evicted message is only removed, never returned. -/
theorem c10_single_message_overflow_dropped_witness :
    (add_single_message ⟨[⟨.user, "x"⟩, ⟨.assistant, "y"⟩], 2, 2⟩ .system "z").2 = none ∧
      (2 : Nat) + 1 > 2 ∧
      (∃ evicted, evicted ≠ [] ∧
        [(⟨.user, "x"⟩ : Msg), ⟨.assistant, "y"⟩] ++ [⟨.system, "z"⟩] =
          evicted ++
            (add_single_message ⟨[⟨.user, "x"⟩, ⟨.assistant, "y"⟩], 2, 2⟩
              .system "z").1.recent_messages) :=
  ⟨(c10_single_message_overflow_dropped ⟨[⟨.user, "x"⟩, ⟨.assistant, "y"⟩], 2, 2⟩
      .system "z").1,
    by decide,
    (c10_single_message_overflow_dropped ⟨[⟨.user, "x"⟩, ⟨.assistant, "y"⟩], 2, 2⟩
      .system "z").2 (by decide)⟩

/-! ## The repetition guard (C8) -/

/-- C8 counterexample: the last five actions are all successful
`read_file` calls — every one of them a pure-read, information-gathering
tool per the oracle prompt's own classification, with no state-changing
action among them — yet `analyze_task_progress` returns
`should_continue = true`: the code only counts `list_directory` calls,
not information-gathering in general. -/
theorem c8_counterexample :
    (analyze_task_progress c8Actions
        (some ("read_file", [("file_path", .str "f5.txt")]))).1 = true ∧
      4 ≤ ((c8Actions.drop (c8Actions.length - 5)).filter
            (fun r => r.tool ∈ pureReadTools)).length ∧
      ∀ r ∈ c8Actions.drop (c8Actions.length - 5), r.tool ∈ pureReadTools := by
  refine ⟨?_, by decide, by decide⟩
  decide

/-- C8 (amended): the guard returns `should_continue = false` exactly when
the history exceeds the 25-action safety valve, or the latest `(tool,
args)` pair has 3+ `Success` occurrences within the last 4 actions (with
at least 3 actions taken and a non-empty latest action), or 4+ of the last
5 actions used the `list_directory` tool (with at least 5 actions taken);
in all other cases it allows the loop to continue. -/
theorem c8_repetition_guard_characterisation (actions : List ActionRec)
    (latest : Option (String × ArgsMap)) :
    (analyze_task_progress actions latest).1 = false ↔
      (actions.length > 25
        ∨ (3 ≤ actions.length ∧
            ∃ lt la, latest = some (lt, la) ∧ 3 ≤ recentExactMatches actions lt la)
        ∨ (5 ≤ actions.length ∧ 4 ≤ listDirCount actions)) := by
  rcases latest with _ | ⟨lt, la⟩ <;>
    simp only [analyze_task_progress] <;>
    split_ifs <;>
    simp_all [Prod.mk.injEq] <;>
    first
      | omega
      | exact Or.inr (Or.inl ⟨lt, la, ⟨rfl, rfl⟩, by omega⟩)

/-! ## The replanning ceiling (C5) -/

theorem replanLoopAux_attempts_le (env : ReplanEnv) :
    ∀ d count attempts hist, MAX_REPLAN_ATTEMPTS + 1 - count ≤ d →
      (replanLoopAux env count attempts hist).attempts ≤
        attempts + (MAX_REPLAN_ATTEMPTS + 1 - count) := by
  intro d
  induction d with
  | zero =>
    intro count attempts hist hd
    unfold replanLoopAux
    simp only [MAX_REPLAN_ATTEMPTS] at *
    rw [if_neg (by omega)]
    simp
  | succ d ih =>
    intro count attempts hist hd
    unfold replanLoopAux
    simp only [MAX_REPLAN_ATTEMPTS] at *
    by_cases hc : count ≤ 2
    · rw [if_pos hc]
      by_cases hh : env.execHalted attempts
      · by_cases hm : 2 < count + 1
        · simp [hh, hm]
          omega
        · simp [hh, hm]
          cases hrep : env.replanOf attempts with
          | plan =>
            simp only
            exact le_trans (ih (count + 1) (attempts + 1) _ (by omega)) (by omega)
          | text t =>
            simp only
            omega
          | other =>
            simp only
            omega
      · simp [hh]
        omega
    · rw [if_neg hc]
      simp

/-- C5: for every behaviour of the plan executor and the decision oracle,
the replanning loop makes at most `MAX_REPLAN_ATTEMPTS + 1` plan
attempts; and when every attempt fails and the oracle keeps proposing new
plans forever, the loop still terminates at the ceiling with the
non-empty "failed to complete task" message recorded in the history. -/
theorem c5_replan_ceiling (env : ReplanEnv) :
    (replanLoop env).attempts ≤ MAX_REPLAN_ATTEMPTS + 1 ∧
      ((∀ k, env.execHalted k = true) → (∀ k, env.replanOf k = .plan) →
        (replanLoop env).exit = .maxedOut ∧
          maxReplanMsg ∈ (replanLoop env).history ∧ maxReplanMsg ≠ "") := by
  constructor
  · have h := replanLoopAux_attempts_le env (MAX_REPLAN_ATTEMPTS + 1) 0 0 [] (by omega)
    simpa [replanLoop] using h
  · intro hH hP
    simp only [replanLoop]
    unfold replanLoopAux
    simp only [MAX_REPLAN_ATTEMPTS, hH 0, hP 0, Bool.not_true]
    norm_num
    unfold replanLoopAux
    simp only [MAX_REPLAN_ATTEMPTS, hH 1, hP 1, Bool.not_true]
    norm_num
    unfold replanLoopAux
    simp only [MAX_REPLAN_ATTEMPTS, hH 2, hP 2, Bool.not_true]
    norm_num
    simp [maxReplanMsg]

/-- C5 witness: a plan executor that always fails with an oracle that
always replans hits the ceiling with the explanatory message recorded. -/
theorem c5_replan_ceiling_witness :
    (∀ k, alwaysFailingReplanEnv.execHalted k = true) ∧
      (∀ k, alwaysFailingReplanEnv.replanOf k = .plan) ∧
      ((replanLoop alwaysFailingReplanEnv).exit = .maxedOut ∧
        maxReplanMsg ∈ (replanLoop alwaysFailingReplanEnv).history ∧
        maxReplanMsg ≠ "") :=
  ⟨fun _ => rfl, fun _ => rfl,
    (c5_replan_ceiling alwaysFailingReplanEnv).2 (fun _ => rfl) (fun _ => rfl)⟩

/-! ## Placeholder substitution (C6, C7) -/

theorem substEntry_key (outs : List Value) (p : String × Value) :
    (substEntry outs p).1 = p.1 := by
  rcases p with ⟨k, v⟩
  cases v <;> simp [substEntry] <;> split <;> rfl

theorem alookup_subst (outs : List Value) :
    ∀ (args : ArgsMap) (a : String) (v : Value), alookup args a = some v →
      alookup (substitute_placeholders args outs) a = some (substEntry outs (a, v)).2 := by
  intro args
  induction args with
  | nil => intro a v h; cases h
  | cons p ps ih =>
    intro a v h
    simp only [substitute_placeholders, List.map_cons, alookup] at h ⊢
    by_cases hk : p.1 = a
    · rw [if_pos hk] at h
      cases h
      rw [if_pos (by rw [substEntry_key]; exact hk)]
      subst hk
      rfl
    · rw [if_neg hk] at h
      rw [if_neg (by rw [substEntry_key]; exact hk)]
      simpa [substitute_placeholders] using ih a v h

/-- C6: when a string-valued argument is exactly one placeholder with its
indexing chain, and the chain evaluates on the referenced prior output,
`substitute_placeholders` replaces the argument by the extracted value
itself (after the dict `result`-unwrapping of lines 85-86) — the native
type is preserved, not a string rendering. -/
theorem c6_whole_placeholder_native_type
    (args : ArgsMap) (outs : List Value) (a s : String) (m : PMatch) (prev v : Value)
    (hlook : alookup args a = some (.str s))
    (hcont : containsSub phLit s.data = true)
    (hscan : scanPlaceholders s = [m])
    (hfull : fullOf m = s)
    (hpos : 0 < digitsToNat m.digits)
    (hget : outs.get? (digitsToNat m.digits - 1) = some prev)
    (heval : evalChain prev m.chain = some v) :
    alookup (substitute_placeholders args outs) a = some (unwrapResult v) := by
  rw [alookup_subst outs args a _ hlook]
  have hle : digitsToNat m.digits ≤ outs.length := by
    obtain ⟨hlt, -⟩ := List.get?_eq_some.mp hget
    omega
  simp only [substEntry, hcont, if_true]
  unfold processArg
  rw [hscan]
  simp only [List.foldl_cons, List.foldl_nil]
  unfold applyMatch
  simp only [hget, heval, hfull]
  rw [if_pos ⟨hpos, hle⟩]
  simp

/-- C6 witness: the claim's concrete scenario — the whole-value
placeholder `<output_of_step_1>['result']` resolves to the list
`["a.jpg", "b.jpg"]` itself, not its string form. -/
theorem c6_whole_placeholder_native_type_witness :
    alookup
        (substitute_placeholders
          [("image_path", .str "<output_of_step_1>['result']")]
          [.dict [("result", .list [.str "a.jpg", .str "b.jpg"])]])
        "image_path" =
      some (.list [.str "a.jpg", .str "b.jpg"]) :=
  c6_whole_placeholder_native_type
    [("image_path", .str "<output_of_step_1>['result']")]
    [.dict [("result", .list [.str "a.jpg", .str "b.jpg"])]]
    "image_path" "<output_of_step_1>['result']"
    ⟨"1", [.idx "'result'"]⟩
    (.dict [("result", .list [.str "a.jpg", .str "b.jpg"])])
    (.list [.str "a.jpg", .str "b.jpg"])
    (by rfl) (by rfl) (by rfl) (by rfl) (by decide) (by rfl) (by rfl)

theorem foldl_applyMatch_fails (s : String) (outs : List Value) :
    ∀ ms : List PMatch, (∀ m ∈ ms, placeholderFails outs m) →
      ms.foldl (applyMatch s outs) (.str s) = .str s := by
  intro ms
  induction ms with
  | nil => intro _; rfl
  | cons m rest ih =>
    intro h
    have hm := h m (by simp)
    have hstep : applyMatch s outs (.str s) m = .str s := by
      unfold applyMatch
      rcases hm with h0 | hlen | hev
      · rw [if_neg (by omega)]
      · rw [if_neg (by omega)]
      · by_cases hin : 0 < digitsToNat m.digits ∧ digitsToNat m.digits ≤ outs.length
        · rw [if_pos hin]
          cases hget : outs.get? (digitsToNat m.digits - 1) with
          | none => rfl
          | some prev =>
            simp only [hev prev hget]
        · rw [if_neg hin]
    simp only [List.foldl_cons, hstep]
    exact ih (fun m' hm' => h m' (by simp [hm']))

/-- C7: when every placeholder in a string-valued argument fails to
resolve — its step number is `0` or out of range of the prior outputs, or
its indexing chain fails on the referenced output (e.g. a missing key) —
`substitute_placeholders` returns the argument with the original
placeholder string left unchanged in place (the model is a total
function: the out-of-range branch only logs, and the `eval` failure is
caught by the `except` branch, which restores the original value). -/
theorem c7_unresolved_placeholder_left_in_place
    (args : ArgsMap) (outs : List Value) (a s : String)
    (hlook : alookup args a = some (.str s))
    (hfail : ∀ m ∈ scanPlaceholders s, placeholderFails outs m) :
    alookup (substitute_placeholders args outs) a = some (.str s) := by
  rw [alookup_subst outs args a _ hlook]
  simp only [substEntry]
  by_cases hcont : containsSub phLit s.data
  · simp only [hcont, if_true]
    unfold processArg
    rw [foldl_applyMatch_fails s outs (scanPlaceholders s) hfail]
  · simp [hcont]

/-- C7 witness: one argument holding two placeholders — a missing-key
chain `<output_of_step_1>['missing']` and an out-of-range step
`<output_of_step_5>` — comes back verbatim. -/
theorem c7_unresolved_placeholder_left_in_place_witness :
    alookup
        (substitute_placeholders
          [("p", .str "<output_of_step_1>['missing'] and <output_of_step_5>")]
          [.dict [("result", .str "x")]])
        "p" =
      some (.str "<output_of_step_1>['missing'] and <output_of_step_5>") :=
  c7_unresolved_placeholder_left_in_place
    [("p", .str "<output_of_step_1>['missing'] and <output_of_step_5>")]
    [.dict [("result", .str "x")]]
    "p" "<output_of_step_1>['missing'] and <output_of_step_5>"
    (by rfl)
    (by
      intro m hm
      have hs : scanPlaceholders "<output_of_step_1>['missing'] and <output_of_step_5>" =
          [⟨"1", [.idx "'missing'"]⟩, ⟨"5", []⟩] := by rfl
      rw [hs] at hm
      simp only [List.mem_cons, List.not_mem_nil, or_false] at hm
      rcases hm with rfl | rfl
      · refine Or.inr (Or.inr ?_)
        intro prev hprev
        cases hprev
        rfl
      · exact Or.inr (Or.inl (by decide)))

/-! ## The executor's step loop (C1, C2, C4) -/

theorem procItems_confs_of_not_critical (env : ExecEnv) (i : Nat) (step : Step)
    (hcrit : step.is_critical = false) :
    ∀ items j, (procItems env i step items j).2.2 = [] := by
  intro items
  induction items with
  | nil => intro j; rfl
  | cons a rest ih =>
    intro j
    simp only [procItems, hcrit, false_and, if_false, Bool.false_eq_true, if_neg]
    cases (env.runTool step.tool a).1 with
    | error => simp
    | success => simp [ih (j + 1)]

theorem procItems_confs_of_critical (env : ExecEnv) (i : Nat) (step : Step)
    (a : ArgsMap) (rest : List ArgsMap) (j : Nat) (hcrit : step.is_critical = true) :
    ∃ tl, (procItems env i step (a :: rest) j).2.2 = (i, j) :: tl := by
  simp only [procItems, hcrit, true_and]
  by_cases hconf : env.confirm i j
  · simp only [hconf, not_true_eq_false, if_false, Bool.not_true, Bool.false_eq_true, if_neg]
    cases (env.runTool step.tool a).1 with
    | error => exact ⟨[], by simp⟩
    | success => exact ⟨(procItems env i step rest (j + 1)).2.2, by simp⟩
  · simp [hconf]

theorem procItems_invs_idx (env : ExecEnv) (i : Nat) (step : Step) :
    ∀ items j, ∀ e ∈ (procItems env i step items j).2.1, e.1 = i := by
  intro items
  induction items with
  | nil => intro j e he; simp [procItems] at he
  | cons a rest ih =>
    intro j e he
    simp only [procItems] at he
    split at he
    · simp at he
    · split at he
      · simp at he
        rw [he]
      · simp at he
        rcases he with he | he
        · rw [he]
        · exact ih (j + 1) e he

theorem procItems_declined_first (env : ExecEnv) (i : Nat) (step : Step)
    (a : ArgsMap) (rest : List ArgsMap) (j : Nat)
    (hcrit : step.is_critical = true) (hdecl : env.confirm i j = false) :
    procItems env i step (a :: rest) j = (.declined j, [], [(i, j)]) := by
  simp [procItems, hcrit, hdecl]

theorem execStepsAux_append (env : ExecEnv) (l₁ : List Step) :
    ∀ (l₂ : List Step) (i : Nat) (outs : List Value),
      execStepsAux env (l₁ ++ l₂) i outs =
        (execStepsAux env l₁ i outs).bind (fun o =>
          if o.stopped then some o
          else
            (execStepsAux env l₂ (i + l₁.length) o.outputs).map (fun o₂ =>
              ⟨o.results ++ o₂.results, o₂.halted, o₂.stopped,
                o.invs ++ o₂.invs, o.confs ++ o₂.confs, o₂.outputs⟩)) := by
  induction l₁ with
  | nil =>
    intro l₂ i outs
    simp only [List.nil_append, execStepsAux, Option.bind_some, List.length_nil, Nat.add_zero]
    cases h : execStepsAux env l₂ i outs with
    | none => simp [h]
    | some o₂ => simp [h]
  | cons st rest ih =>
    intro l₂ i outs
    simp only [List.cons_append, execStepsAux]
    cases hap : argsToProcess st (substitute_placeholders st.args outs) with
    | none => rfl
    | some items =>
      simp only
      rcases hpi : procItems env i st items 0 with ⟨oc, invs, confs⟩
      cases oc with
      | declined j => simp
      | errored j out => simp
      | completed coll =>
        simp only
        by_cases hcp : checkpointFails st (finalOutputOf coll)
        · simp [hcp]
        · simp only [hcp, Bool.false_eq_true, if_neg, if_false]
          simp only [List.append_eq]
          rw [ih l₂ (i + 1) (outs ++ [finalOutputOf coll])]
          cases hrest : execStepsAux env rest (i + 1) (outs ++ [finalOutputOf coll]) with
          | none => rfl
          | some o' =>
            simp only [Option.some_bind]
            by_cases hst : o'.stopped
            · simp [hst]
            · simp only [hst, Bool.false_eq_true, if_neg, if_false]
              have hidx : i + 1 + rest.length = i + (st :: rest).length := by
                simp only [List.length_cons]
                omega
              rw [hidx]
              cases hl2 : execStepsAux env l₂ (i + (st :: rest).length) o'.outputs with
              | none => simp
              | some o₂ => simp

theorem execStepsAux_completed_success (env : ExecEnv) :
    ∀ (steps : List Step) (i : Nat) (outs : List Value) (o : ExecOut),
      execStepsAux env steps i outs = some o → o.stopped = false →
        o.results.length = steps.length ∧ ∀ r ∈ o.results, r.status = .success := by
  intro steps
  induction steps with
  | nil =>
    intro i outs o ho _
    cases ho
    simp
  | cons st rest ih =>
    intro i outs o ho hstop
    simp only [execStepsAux] at ho
    cases hap : argsToProcess st (substitute_placeholders st.args outs) with
    | none => rw [hap] at ho; cases ho
    | some items =>
      rw [hap] at ho
      simp only at ho
      rcases hpi : procItems env i st items 0 with ⟨oc, invs, confs⟩
      rw [hpi] at ho
      cases oc with
      | declined j => cases ho; simp at hstop
      | errored j out => cases ho; simp at hstop
      | completed coll =>
        simp only at ho
        by_cases hcp : checkpointFails st (finalOutputOf coll)
        · rw [if_pos hcp] at ho
          cases ho
          simp at hstop
        · rw [if_neg hcp] at ho
          cases hrest : execStepsAux env rest (i + 1) (outs ++ [finalOutputOf coll]) with
          | none => rw [hrest] at ho; cases ho
          | some o' =>
            rw [hrest] at ho
            simp only at ho
            cases ho
            simp only at hstop
            obtain ⟨hlen, hall⟩ := ih (i + 1) (outs ++ [finalOutputOf coll]) o' hrest hstop
            constructor
            · simp [hlen]
            · intro r hr
              simp only [List.mem_cons] at hr
              rcases hr with rfl | hr
              · rfl
              · exact hall r hr

theorem execStepsAux_invs_range (env : ExecEnv) :
    ∀ (steps : List Step) (i : Nat) (outs : List Value) (o : ExecOut),
      execStepsAux env steps i outs = some o →
        ∀ e ∈ o.invs, i ≤ e.1 ∧ e.1 < i + steps.length := by
  intro steps
  induction steps with
  | nil =>
    intro i outs o ho
    cases ho
    simp
  | cons st rest ih =>
    intro i outs o ho e he
    simp only [execStepsAux] at ho
    cases hap : argsToProcess st (substitute_placeholders st.args outs) with
    | none => rw [hap] at ho; cases ho
    | some items =>
      rw [hap] at ho
      simp only at ho
      rcases hpi : procItems env i st items 0 with ⟨oc, invs, confs⟩
      rw [hpi] at ho
      have hinv : ∀ e ∈ invs, e.1 = i := by
        intro e' he'
        have := procItems_invs_idx env i st items 0 e'
        rw [hpi] at this
        exact this he'
      cases oc with
      | declined j =>
        cases ho
        simp only at he
        have := hinv e he
        simp [this]
      | errored j out =>
        cases ho
        simp only at he
        have := hinv e he
        simp [this]
      | completed coll =>
        simp only at ho
        by_cases hcp : checkpointFails st (finalOutputOf coll)
        · rw [if_pos hcp] at ho
          cases ho
          simp only at he
          have := hinv e he
          simp [this]
        · rw [if_neg hcp] at ho
          cases hrest : execStepsAux env rest (i + 1) (outs ++ [finalOutputOf coll]) with
          | none => rw [hrest] at ho; cases ho
          | some o' =>
            rw [hrest] at ho
            simp only at ho
            cases ho
            simp only [List.mem_append] at he
            rcases he with he | he
            · have := hinv e he
              simp [this]
            · have := ih (i + 1) (outs ++ [finalOutputOf coll]) o' hrest e he
              simp only [List.length_cons]
              omega

/-- C1 counterexample: the Executor's gate is only the oracle-supplied
`is_critical` flag (src/executor.py line 175).  A `write_file` Action
whose flag is `false` executes without any confirmation prompt even
against a user who declines everything (first conjunct, empty `confs`
trace), and a `list_directory` Action whose flag is `true` does pause —
and here is aborted (second conjunct) — so neither "write_file is always
critical" nor "list_directory is never critical" is enforced by the
Executor. -/
theorem c1_counterexample :
    (execute_plan
        ⟨true, fun _ _ => false, fun _ _ => (.success, .str "ok")⟩
        [⟨"write_file", [("file_path", .str "r.txt"), ("content", .str "hi")], false, none⟩] =
      some ⟨[⟨"write_file", .success, .str "ok"⟩], false, false,
            [(0, "write_file", [("file_path", .str "r.txt"), ("content", .str "hi")])],
            [], [.str "ok"]⟩) ∧
    (execute_plan
        ⟨true, fun _ _ => false, fun _ _ => (.success, .str "ok")⟩
        [⟨"list_directory", [("path", .str ".")], true, none⟩] =
      some ⟨[⟨"list_directory", .aborted, .str "User aborted critical step."⟩], true, true,
            [], [(0, 0)], []⟩) :=
  ⟨rfl, rfl⟩

theorem execStepsAux_single_confs (env : ExecEnv) (st : Step) (i : Nat)
    (outs : List Value) (items : List ArgsMap)
    (hargs : argsToProcess st (substitute_placeholders st.args outs) = some items) :
    ∃ o, execStepsAux env [st] i outs = some o ∧
      o.confs = (procItems env i st items 0).2.2 := by
  simp only [execStepsAux]
  rw [hargs]
  simp only
  rcases hpi : procItems env i st items 0 with ⟨oc, invs, confs⟩
  cases oc with
  | declined j => exact ⟨_, rfl, rfl⟩
  | errored j out => exact ⟨_, rfl, rfl⟩
  | completed coll =>
    by_cases hcp : checkpointFails st (finalOutputOf coll)
    · exact ⟨⟨[⟨st.tool, .success, finalOutputOf coll⟩], false, true, invs, confs,
        outs ++ [finalOutputOf coll]⟩, by simp only [hcp, if_true], rfl⟩
    · refine ⟨⟨[⟨st.tool, .success, finalOutputOf coll⟩], false, false, invs ++ [], confs ++ [],
        outs ++ [finalOutputOf coll]⟩, ?_, by simp⟩
      simp only [hcp, Bool.false_eq_true, if_neg, if_false]

/-- C1 (amended): the Executor pauses for per-step confirmation exactly
when the Action's `is_critical` flag is set — the tool-based policy
(write_file always critical, destructive shell commands critical,
pure-read tools never) lives in the DecisionOracle prompt that produces
the flag, not in the Executor. -/
theorem c1_confirmation_iff_flag (env : ExecEnv) (st : Step)
    (a : ArgsMap) (items : List ArgsMap)
    (happrove : env.approve = true)
    (hargs : argsToProcess st (substitute_placeholders st.args []) = some (a :: items)) :
    ∃ o, execute_plan env [st] = some o ∧ (o.confs ≠ [] ↔ st.is_critical = true) := by
  obtain ⟨o, ho, hconfs⟩ := execStepsAux_single_confs env st 0 [] (a :: items) hargs
  refine ⟨o, ?_, ?_⟩
  · simp only [execute_plan, happrove, if_true]
    exact ho
  · rw [hconfs]
    by_cases hcrit : st.is_critical
    · obtain ⟨tl, htl⟩ := procItems_confs_of_critical env 0 st a items 0 hcrit
      simp [htl, hcrit]
    · have hcf : st.is_critical = false := by
        revert hcrit
        cases st.is_critical <;> simp
      rw [procItems_confs_of_not_critical env 0 st hcf (a :: items) 0]
      simp [hcf]

/-- C1 witness (for the amended claim): a critical `list_directory` step
under a declining user — the plan approval and argument expansion
hypotheses hold, and the Executor does prompt (non-empty confirmation
trace) exactly because the flag is set. -/
theorem c1_confirmation_iff_flag_witness :
    (⟨true, fun _ _ => false, fun _ _ => (.success, .str "ok")⟩ : ExecEnv).approve = true ∧
      argsToProcess ⟨"list_directory", [("path", .str ".")], true, none⟩
          (substitute_placeholders [("path", .str ".")] []) =
        some ([("path", .str ".")] :: []) ∧
      ∃ o, execute_plan
            ⟨true, fun _ _ => false, fun _ _ => (.success, .str "ok")⟩
            [⟨"list_directory", [("path", .str ".")], true, none⟩] = some o ∧
          (o.confs ≠ [] ↔ (⟨"list_directory", [("path", .str ".")], true, none⟩ : Step).is_critical = true) :=
  ⟨rfl, rfl,
    c1_confirmation_iff_flag
      ⟨true, fun _ _ => false, fun _ _ => (.success, .str "ok")⟩
      ⟨"list_directory", [("path", .str ".")], true, none⟩
      [("path", .str ".")] [] rfl rfl⟩

/-- C2: if the steps before `st` all complete successfully and `st`'s tool
invocation returns an `Error` status, `execute_plan` returns exactly the
earlier Success results plus one Error result for `st`, with
`halted = true`; the accumulated results are one Success per completed
earlier step, and no tool invocation carries a step index beyond `st`'s —
the steps after the failure are never invoked. -/
theorem c2_halts_on_error_preserving_results
    (env : ExecEnv) (pre : List Step) (st : Step) (post : List Step)
    (o : ExecOut) (items : List ArgsMap) (j : Nat) (out : Value)
    (invs2 : List (Nat × String × ArgsMap)) (confs2 : List (Nat × Nat))
    (happrove : env.approve = true)
    (hpre : execStepsAux env pre 0 [] = some o)
    (hdone : o.stopped = false)
    (hargs : argsToProcess st (substitute_placeholders st.args o.outputs) = some items)
    (herr : procItems env pre.length st items 0 = (.errored j out, invs2, confs2)) :
    execute_plan env (pre ++ st :: post) =
        some ⟨o.results ++ [⟨st.tool, .error, out⟩], true, true,
              o.invs ++ invs2, o.confs ++ confs2, o.outputs⟩ ∧
      o.results.length = pre.length ∧
      (∀ r ∈ o.results, r.status = .success) ∧
      (∀ e ∈ o.invs ++ invs2, e.1 ≤ pre.length) := by
  refine ⟨?_, (execStepsAux_completed_success env pre 0 [] o hpre hdone).1,
    (execStepsAux_completed_success env pre 0 [] o hpre hdone).2, ?_⟩
  · simp only [execute_plan, happrove, if_true]
    rw [execStepsAux_append env pre (st :: post) 0 [], hpre]
    simp only [Option.some_bind, hdone, Bool.false_eq_true, if_neg, if_false, Nat.zero_add]
    simp only [execStepsAux]
    rw [hargs]
    simp only
    rw [herr]
    rfl
  · intro e he
    simp only [List.mem_append] at he
    rcases he with he | he
    · have := execStepsAux_invs_range env pre 0 [] o hpre e he
      omega
    · have hidx := procItems_invs_idx env pre.length st items 0 e
      rw [herr] at hidx
      have := hidx he
      omega

/-- C2 witness: a 3-step plan whose second step errors — the result is
exactly one Success plus one Error `StepResult`, `halted = true`, and the
invocation trace shows step 3 was never invoked. -/
theorem c2_halts_on_error_preserving_results_witness :
    (⟨true, fun _ _ => true,
        fun t _ => if t = "fail_tool" then (.error, .str "boom") else (.success, .str "ok")⟩ :
      ExecEnv).approve = true ∧
    execStepsAux
        ⟨true, fun _ _ => true,
          fun t _ => if t = "fail_tool" then (.error, .str "boom") else (.success, .str "ok")⟩
        [⟨"list_directory", [("path", .str ".")], false, none⟩] 0 [] =
      some ⟨[⟨"list_directory", .success, .str "ok"⟩], false, false,
            [(0, "list_directory", [("path", .str ".")])], [], [.str "ok"]⟩ ∧
    (execute_plan
        ⟨true, fun _ _ => true,
          fun t _ => if t = "fail_tool" then (.error, .str "boom") else (.success, .str "ok")⟩
        [⟨"list_directory", [("path", .str ".")], false, none⟩,
         ⟨"fail_tool", [("x", .str "1")], false, none⟩,
         ⟨"write_file", [("file_path", .str "r.txt")], false, none⟩] =
      some ⟨[⟨"list_directory", .success, .str "ok"⟩, ⟨"fail_tool", .error, .str "boom"⟩],
            true, true,
            [(0, "list_directory", [("path", .str ".")]), (1, "fail_tool", [("x", .str "1")])],
            [], [.str "ok"]⟩ ∧
      (2 : Nat) = 1 + 1 ∧ True ∧ True) := by
  refine ⟨rfl, rfl, ?_⟩
  have h := c2_halts_on_error_preserving_results
    ⟨true, fun _ _ => true,
      fun t _ => if t = "fail_tool" then (.error, .str "boom") else (.success, .str "ok")⟩
    [⟨"list_directory", [("path", .str ".")], false, none⟩]
    ⟨"fail_tool", [("x", .str "1")], false, none⟩
    [⟨"write_file", [("file_path", .str "r.txt")], false, none⟩]
    ⟨[⟨"list_directory", .success, .str "ok"⟩], false, false,
      [(0, "list_directory", [("path", .str ".")])], [], [.str "ok"]⟩
    [[("x", .str "1")]] 0 (.str "boom")
    [(1, "fail_tool", [("x", .str "1")])] []
    rfl rfl rfl rfl rfl
  exact ⟨h.1, by decide, trivial, trivial⟩

/-- C4: if the steps before `st` all complete successfully, `st` is
marked critical and the user declines its first confirmation prompt,
`execute_plan` records an `Aborted` result for `st`, halts the remaining
plan, keeps all earlier results, and makes zero tool invocations for the
declined step (the invocation trace is exactly the earlier steps'). -/
theorem c4_critical_decline_aborts_without_invoking
    (env : ExecEnv) (pre : List Step) (st : Step) (post : List Step)
    (o : ExecOut) (a : ArgsMap) (items : List ArgsMap)
    (happrove : env.approve = true)
    (hpre : execStepsAux env pre 0 [] = some o)
    (hdone : o.stopped = false)
    (hargs : argsToProcess st (substitute_placeholders st.args o.outputs) = some (a :: items))
    (hcrit : st.is_critical = true)
    (hdecl : env.confirm pre.length 0 = false) :
    execute_plan env (pre ++ st :: post) =
        some ⟨o.results ++ [⟨st.tool, .aborted, .str "User aborted critical step."⟩],
              true, true, o.invs, o.confs ++ [(pre.length, 0)], o.outputs⟩ ∧
      (∀ e ∈ o.invs, e.1 < pre.length) := by
  constructor
  · simp only [execute_plan, happrove, if_true]
    rw [execStepsAux_append env pre (st :: post) 0 [], hpre]
    simp only [Option.some_bind, hdone, Bool.false_eq_true, if_neg, if_false, Nat.zero_add]
    simp only [execStepsAux]
    rw [hargs]
    simp only
    rw [procItems_declined_first env pre.length st a items 0 hcrit hdecl]
    simp
  · intro e he
    have := execStepsAux_invs_range env pre 0 [] o hpre e he
    omega

/-- C4 witness: the spec's decline scenario — a critical
`run_shell_command` step is declined; the result is the earlier Success
plus an Aborted record, and the invocation trace contains nothing for the
declined step. -/
theorem c4_critical_decline_aborts_without_invoking_witness :
    (⟨true, fun i _ => ¬(i = 1), fun _ _ => (.success, .str "ok")⟩ : ExecEnv).approve = true ∧
    (⟨"run_shell_command", [("command", .str "rm temp.txt")], true, none⟩ : Step).is_critical
        = true ∧
    (⟨true, fun i _ => ¬(i = 1), fun _ _ => (.success, .str "ok")⟩ : ExecEnv).confirm 1 0
        = false ∧
    (execute_plan
        ⟨true, fun i _ => ¬(i = 1), fun _ _ => (.success, .str "ok")⟩
        [⟨"list_directory", [("path", .str ".")], false, none⟩,
         ⟨"run_shell_command", [("command", .str "rm temp.txt")], true, none⟩] =
      some ⟨[⟨"list_directory", .success, .str "ok"⟩,
             ⟨"run_shell_command", .aborted, .str "User aborted critical step."⟩],
            true, true,
            [(0, "list_directory", [("path", .str ".")])], [(1, 0)], [.str "ok"]⟩ ∧
      ∀ e ∈ [((0 : Nat), "list_directory", [("path", Value.str ".")])], e.1 < 1) := by
  refine ⟨rfl, rfl, rfl, ?_⟩
  have h := c4_critical_decline_aborts_without_invoking
    ⟨true, fun i _ => ¬(i = 1), fun _ _ => (.success, .str "ok")⟩
    [⟨"list_directory", [("path", .str ".")], false, none⟩]
    ⟨"run_shell_command", [("command", .str "rm temp.txt")], true, none⟩
    []
    ⟨[⟨"list_directory", .success, .str "ok"⟩], false, false,
      [(0, "list_directory", [("path", .str ".")])], [], [.str "ok"]⟩
    [("command", .str "rm temp.txt")] []
    rfl rfl rfl rfl rfl rfl
  exact ⟨h.1, h.2⟩

end CliAgent
